import Mathlib

/-!
Verification of the Monkey interpreter front end (token model, lexer,
Pratt parser, AST string form, REPL rendering) against its specification.

The Go sources are embedded shallowly:
* `token` mirrors `pkg/token/token.go`: a token type is the Go string
  constant itself, a token is a pair of type and literal.
* `lexer` mirrors `pkg/lexer/lexer.go`: the input is the list of (ASCII)
  characters of the Go string, the cursor is the `position` field; every
  helper returns the new position instead of mutating it.
* `ast` mirrors `pkg/ast/ast.go`: Go interface values of type
  `ast.Expression` can be `nil`, which is the `nilE` constructor; the
  `String()` methods become functions with a fuel argument (the Go methods
  terminate structurally, fuel keeps the Lean recursion structural so that
  terms evaluate inside the kernel).
* `parser` mirrors `pkg/parser/parser.go`: the parser state carries the
  not-yet-received tokens of the lexer channel, `curToken`, `peekToken`
  and the recorded errors; receiving from the closed channel yields the
  zero-valued token, exactly as a Go `<-` on a closed channel does.
  Every parse function takes fuel and returns `none` when it runs out, so
  a run that returns `some` is a faithful trace of the Go recursion.
* `object`/`repl` mirror `pkg/object/object.go` and `pkg/repl/repl.go`.
-/

namespace token

/-- Go `type TokenType string` (`pkg/token/token.go`). -/
abbrev TokenType := String

def Illegal : TokenType := "ILLEGAL"
def Eof : TokenType := "EOF"
def Ident : TokenType := "IDENT"
def TypeInteger : TokenType := "INT"
def TypeString : TokenType := "STRING"

def OperatorAssign : TokenType := "="
def OperatorPlus : TokenType := "+"
def OperatorMinus : TokenType := "-"
def OperatorBang : TokenType := "!"
def OperatorAsterisk : TokenType := "*"
def OperatorSlash : TokenType := "/"
def OperatorEqual : TokenType := "=="
def OperatorNotEqual : TokenType := "!="
def OperatorLowerThan : TokenType := "<"
def OperatorGreaterThan : TokenType := ">"

def DelimiterComma : TokenType := ","
def DelimiterSemicolon : TokenType := ";"
def DelimiterLeftParenthesis : TokenType := "("
def DelimiterRightParenthesis : TokenType := ")"
def DelimiterLeftBrace : TokenType := "\x7b"
def DelimiterRightBrace : TokenType := "\x7d"
def DelimiterLeftBracket : TokenType := "["
def DelimiterRightBracket : TokenType := "]"
def DelimiterColon : TokenType := ":"

def KeywordFunction : TokenType := "FUNCTION"
def KeywordLet : TokenType := "LET"
def KeywordTrue : TokenType := "TRUE"
def KeywordFalse : TokenType := "FALSE"
def KeywordIf : TokenType := "IF"
def KeywordElse : TokenType := "ELSE"
def KeywordReturn : TokenType := "RETURN"

/-- Go `type Token struct { Type TokenType; Literal string }`. -/
structure Token where
  type : TokenType
  literal : String
  deriving DecidableEq, Repr

/-- The zero value of `token.Token`, what a receive on the closed token
channel yields. -/
def zeroToken : Token := ⟨"", ""⟩

/-- Go `LookupIdent` over the `keywords` map. -/
def LookupIdent (ident : String) : TokenType :=
  if ident = "fn" then KeywordFunction
  else if ident = "let" then KeywordLet
  else if ident = "true" then KeywordTrue
  else if ident = "false" then KeywordFalse
  else if ident = "if" then KeywordIf
  else if ident = "else" then KeywordElse
  else if ident = "return" then KeywordReturn
  else Ident

end token

namespace lexer

open token

/-- Go `isLetter`: `'a' <= ch && ch <= 'z' || 'A' <= ch && ch <= 'Z' || ch == '_'`
(byte comparisons, written on the character code). -/
def isLetter (ch : Char) : Bool :=
  (97 ≤ ch.toNat && ch.toNat ≤ 122) || (65 ≤ ch.toNat && ch.toNat ≤ 90) || ch.toNat = 95

/-- Go `isDigit`: `'0' <= ch && ch <= '9'`. -/
def isDigit (ch : Char) : Bool :=
  48 ≤ ch.toNat && ch.toNat ≤ 57

/-- The whitespace test of Go `skipWhitespace`:
`ch == ' ' || ch == '\t' || ch == '\n' || ch == '\r'`. -/
def isWhitespace (ch : Char) : Bool :=
  ch.toNat = 32 || ch.toNat = 9 || ch.toNat = 10 || ch.toNat = 13

/-- Go `peekChar`: the byte at the cursor, `0` at or past the end. -/
def peekChar (input : List Char) (pos : Nat) : Char :=
  if pos < input.length then input.getD pos (Char.ofNat 0) else Char.ofNat 0

/-- The number of leading characters satisfying `p`. -/
def countWhile (p : Char → Bool) : List Char → Nat
  | [] => 0
  | c :: cs => if p c then countWhile p cs + 1 else 0

/-- The advance-while loops shared by Go `skipWhitespace`, `readIdentifier`,
`readNumber` and `readString`: repeatedly `readChar` while the peeked
character satisfies `p`, and return the final position.  Each Go loop
breaks at the `0` sentinel because its test is false on it (`p` is false on
`'\x00'` for every instantiation below), so the final position is the start
plus the number of remaining characters satisfying `p`; `readWhile_unfold`
below recovers the loop-shaped unfolding. -/
def readWhile (p : Char → Bool) (input : List Char) (pos : Nat) : Nat :=
  pos + countWhile p (input.drop pos)

/-- Go `skipWhitespace`. -/
def skipWhitespace (input : List Char) (pos : Nat) : Nat :=
  readWhile isWhitespace input pos

/-- The loop test of Go `readString`: `ch != '"' && ch != 0`. -/
def insideString (ch : Char) : Bool :=
  !(ch = '\"') && !(ch = Char.ofNat 0)

/-- The Go slice `l.input[a:b]` as a string. -/
def sliceStr (input : List Char) (a b : Nat) : String :=
  String.mk ((input.drop a).take (b - a))

/-- Go `peekTwoChars`: note the `l.position+2 >= len(l.input)` test, which
returns `""` even when exactly two characters remain. -/
def peekTwoChars (input : List Char) (pos : Nat) : String :=
  if input.length ≤ pos + 2 then "" else sliceStr input pos (pos + 2)

/-- The `switch` of Go `nextToken`, applied after `skipWhitespace`: returns
the token together with the position after the final `l.readChar()` of the
chosen case (the `0`, identifier and number cases return early without it).
Go switches on the byte, written here as the character code (`'"'` is 34,
`'+'` 43, `'-'` 45, `'/'` 47, `'*'` 42, `'<'` 60, `'>'` 62, `';'` 59,
`'('` 40, `')'` 41, `','` 44, the braces 123 and 125, `'['` 91, `']'` 93,
`':'` 58, `'='` 61, `'!'` 33). -/
def tokenAt (input : List Char) (pos : Nat) : Token × Nat :=
  let ch := peekChar input pos
  if ch.toNat = 34 then
    let strEnd := readWhile insideString input (pos + 1)
    (⟨TypeString, sliceStr input (pos + 1) strEnd⟩, strEnd + 1)
  else if ch.toNat = 43 then (⟨OperatorPlus, String.mk [ch]⟩, pos + 1)
  else if ch.toNat = 45 then (⟨OperatorMinus, String.mk [ch]⟩, pos + 1)
  else if ch.toNat = 47 then (⟨OperatorSlash, String.mk [ch]⟩, pos + 1)
  else if ch.toNat = 42 then (⟨OperatorAsterisk, String.mk [ch]⟩, pos + 1)
  else if ch.toNat = 60 then (⟨OperatorLowerThan, String.mk [ch]⟩, pos + 1)
  else if ch.toNat = 62 then (⟨OperatorGreaterThan, String.mk [ch]⟩, pos + 1)
  else if ch.toNat = 59 then (⟨DelimiterSemicolon, String.mk [ch]⟩, pos + 1)
  else if ch.toNat = 40 then (⟨DelimiterLeftParenthesis, String.mk [ch]⟩, pos + 1)
  else if ch.toNat = 41 then (⟨DelimiterRightParenthesis, String.mk [ch]⟩, pos + 1)
  else if ch.toNat = 44 then (⟨DelimiterComma, String.mk [ch]⟩, pos + 1)
  else if ch.toNat = 123 then (⟨DelimiterLeftBrace, String.mk [ch]⟩, pos + 1)
  else if ch.toNat = 125 then (⟨DelimiterRightBrace, String.mk [ch]⟩, pos + 1)
  else if ch.toNat = 91 then (⟨DelimiterLeftBracket, String.mk [ch]⟩, pos + 1)
  else if ch.toNat = 93 then (⟨DelimiterRightBracket, String.mk [ch]⟩, pos + 1)
  else if ch.toNat = 58 then (⟨DelimiterColon, String.mk [ch]⟩, pos + 1)
  else if ch.toNat = 0 then (⟨Eof, ""⟩, pos)
  else if ch.toNat = 61 then
    let chars := peekTwoChars input pos
    if chars = OperatorEqual then (⟨OperatorEqual, chars⟩, pos + 2)
    else (⟨OperatorAssign, String.mk [ch]⟩, pos + 1)
  else if ch.toNat = 33 then
    let chars := peekTwoChars input pos
    if chars = OperatorNotEqual then (⟨OperatorNotEqual, chars⟩, pos + 2)
    else (⟨OperatorBang, String.mk [ch]⟩, pos + 1)
  else if isLetter ch then
    let idEnd := readWhile isLetter input pos
    let lit := sliceStr input pos idEnd
    (⟨LookupIdent lit, lit⟩, idEnd)
  else if isDigit ch then
    let numEnd := readWhile isDigit input pos
    (⟨TypeInteger, sliceStr input pos numEnd⟩, numEnd)
  else (⟨Illegal, String.mk [ch]⟩, pos + 1)

/-- Go `nextToken`: skip whitespace, then the switch. -/
def nextToken (input : List Char) (pos : Nat) : Token × Nat :=
  tokenAt input (skipWhitespace input pos)

/-- The producer loop of Go `Tokens`: send `nextToken`, stop (closing the
channel) right after sending an `EOF`.  `fuel` is a modelling artifact;
`fuel = input.length + 2` is proved sufficient below. -/
def tokensAux : Nat → List Char → Nat → List Token
  | 0, _, _ => []
  | n + 1, input, pos =>
    let (t, pos') := nextToken input pos
    if t.type = Eof then [t] else t :: tokensAux n input pos'

/-- The full sequence of tokens delivered by the channel of Go `Tokens`. -/
def lexTokens (input : List Char) : List Token :=
  tokensAux (input.length + 2) input 0

/-- The cursor after `k` pull-style `nextToken` calls starting at `pos`. -/
def iterPos (input : List Char) : Nat → Nat → Nat
  | 0, pos => pos
  | k + 1, pos => iterPos input k (nextToken input pos).2

/-- The first `n` results of repeatedly calling `nextToken` pull-style,
without any truncation. -/
def pullStream (input : List Char) : Nat → Nat → List Token
  | 0, _ => []
  | n + 1, pos => (nextToken input pos).1 :: pullStream input n (nextToken input pos).2

/-- Truncate a token sequence right after its first `EOF`. -/
def takeThroughEof : List Token → List Token
  | [] => []
  | t :: ts => if t.type = Eof then [t] else t :: takeThroughEof ts

end lexer

namespace ast

open token

/-- Go `ast.Identifier` (`Token`, `Value`). -/
structure Identifier where
  tok : Token
  value : String
  deriving DecidableEq, Repr

mutual
/-- Go interface `ast.Expression`.  A Go interface value may be `nil`
(`nilE`); the other constructors are the expression node structs of
`pkg/ast/ast.go`, each carrying the fields of its struct.  `ast.HashLiteral`
is referenced by the parser; its node (`Token`, `Pairs`) is reconstructed
from that use, with the Go `map[ast.Expression]ast.Expression` represented
by its list of entries (see `parser.mapAssign`). -/
inductive Expr : Type where
  | nilE : Expr
  | identE : Identifier → Expr
  | intLit : Token → Int → Expr
  | strLit : Token → String → Expr
  | boolLit : Token → Bool → Expr
  | prefixE : Token → String → Expr → Expr
  | infixE : Token → Expr → String → Expr → Expr
  | ifE : Token → Expr → Block → Block → Expr
  | funcLit : Token → Option (List Identifier) → Block → Expr
  | arrayLit : Token → Option (List Expr) → Expr
  | indexE : Token → Expr → Expr → Expr
  | callE : Token → Expr → Option (List Expr) → Expr
  | hashLit : Token → List (Expr × Expr) → Expr
/-- Go interface `ast.Statement`: `LetStatement`, `ReturnStatement`,
`ExpressionStatement`.  `nilLetS` is the typed-nil `*ast.LetStatement`
returned by a failed `parseLetStatement`: wrapped in the interface it is
not the nil interface, so the `stmt != nil` tests of the statement loops
do not filter it and it is appended like any other statement (the nil
interface itself never arises from `parseStatement`). -/
inductive Stmt : Type where
  | letS : Token → Identifier → Expr → Stmt
  | returnS : Token → Expr → Stmt
  | exprS : Token → Expr → Stmt
  | nilLetS : Stmt
/-- Go `*ast.BlockStatement`: a possibly-`nil` pointer (`nilB`). -/
inductive Block : Type where
  | nilB : Block
  | mk : Token → List Stmt → Block
end

/-- The token stored in a block (Go `bs.Token`). -/
def Block.tok : Block → Token
  | .nilB => token.zeroToken
  | .mk t _ => t

/-- Go `strings.Join(xs, ", ")`. -/
def joinComma (xs : List String) : String :=
  String.intercalate ", " xs

mutual
/-- The `String()` methods of the expression nodes of `pkg/ast/ast.go`.
The Go methods recurse structurally on the tree; the fuel argument keeps
the Lean recursion structural (any fuel at least the tree height computes
the same string).  On `nilE` (and on the typed-nil statement `nilLetS`)
the Go method set would dereference a nil value; parsed programs never put
one under a printed node, and the embedding returns `""` there.  The `hashLit` case is modelled from the
spec (`{k: v, …}`): `ast.HashLiteral.String` is not among the sources. -/
def exprString : Nat → Expr → String
  | 0, _ => ""
  | _ + 1, .nilE => ""
  | _ + 1, .identE id => id.value
  | _ + 1, .intLit tok _ => tok.literal
  | _ + 1, .strLit tok _ => tok.literal
  | _ + 1, .boolLit tok _ => tok.literal
  | fuel + 1, .prefixE _ op right =>
      "(" ++ op ++ exprString fuel right ++ ")"
  | fuel + 1, .infixE _ left op right =>
      "(" ++ exprString fuel left ++ " " ++ op ++ " " ++ exprString fuel right ++ ")"
  | fuel + 1, .ifE _ cond cons alt =>
      "if" ++ exprString fuel cond ++ " " ++ blockString fuel cons ++
        (match alt with
          | .nilB => ""
          | .mk t ss => "else " ++ blockString fuel (.mk t ss))
  | fuel + 1, .funcLit tok params body =>
      tok.literal ++ "(" ++ joinComma ((params.getD []).map Identifier.value) ++ ") " ++
        blockString fuel body
  | fuel + 1, .arrayLit _ elems =>
      "[" ++ joinComma (exprStrings fuel (elems.getD [])) ++ "]"
  | fuel + 1, .indexE _ left idx =>
      "(" ++ exprString fuel left ++ "[" ++ exprString fuel idx ++ "])"
  | fuel + 1, .callE _ fn args =>
      exprString fuel fn ++ "(" ++ joinComma (exprStrings fuel (args.getD [])) ++ ")"
  | fuel + 1, .hashLit _ pairs =>
      "\x7b" ++ joinComma (pairStrings fuel pairs) ++ "\x7d"
def exprStrings : Nat → List Expr → List String
  | 0, _ => []
  | _ + 1, [] => []
  | fuel + 1, e :: es => exprString fuel e :: exprStrings fuel es
def pairStrings : Nat → List (Expr × Expr) → List String
  | 0, _ => []
  | _ + 1, [] => []
  | fuel + 1, (k, v) :: ps =>
      (exprString fuel k ++ ": " ++ exprString fuel v) :: pairStrings fuel ps
def stmtString : Nat → Stmt → String
  | 0, _ => ""
  | _ + 1, .nilLetS => ""
  | fuel + 1, .letS tok name value =>
      tok.literal ++ " " ++ name.value ++ " = " ++ exprString fuel value ++ ";"
  | fuel + 1, .returnS tok value =>
      tok.literal ++ " " ++ exprString fuel value ++ ";"
  | fuel + 1, .exprS _ e => exprString fuel e
def stmtStrings : Nat → List Stmt → String
  | 0, _ => ""
  | _ + 1, [] => ""
  | fuel + 1, st :: ss => stmtString fuel st ++ stmtStrings fuel ss
def blockString : Nat → Block → String
  | 0, _ => ""
  | _ + 1, .nilB => ""
  | fuel + 1, .mk _ stmts => stmtStrings fuel stmts
end

/-- Go `Program.String()`: the concatenation of its statements' strings. -/
def programString (fuel : Nat) (stmts : List Stmt) : String :=
  stmtStrings fuel stmts

end ast

namespace strconv

/-- The value of an ASCII digit (`c - '0'`). -/
def digitVal (c : Char) : Nat :=
  c.toNat - 48

/-- The digit-accumulation loop of Go `strconv.ParseUint`: fails on a
character that is not a digit of the base. -/
def parseDigits (base : Nat) (acc : Nat) : List Char → Option Nat
  | [] => some acc
  | c :: cs =>
    if digitVal c < base then parseDigits base (acc * base + digitVal c) cs else none

/-- Go `strconv.ParseInt(s, 0, 64)`, restricted to the strings the lexer's
`readNumber` produces (non-empty runs of ASCII decimal digits, so no sign,
no underscore and no `0b`/`0o`/`0x` prefix can occur).  With base `0`, a
literal starting with `'0'` that has more than one character is read in
base 8; the result must fit in a non-negative `int64`, otherwise `ParseInt`
reports a range error (`none` here, like any other failure). -/
def ParseIntBase0 (s : String) : Option Int :=
  match s.data with
  | [] => none
  | c :: cs =>
    let parsed := if c = '0' ∧ cs ≠ [] then parseDigits 8 0 (c :: cs)
                  else parseDigits 10 0 (c :: cs)
    match parsed with
    | none => none
    | some n => if n ≤ 2 ^ 63 - 1 then some (n : Int) else none

end strconv

namespace parser

open token ast

/-- The precedence constants of `pkg/parser/parser.go` (`iota`, starting
after a blank slot).  The Go name of `PREFIXOP` is `PREFIX`. -/
def LOWEST : Nat := 1
def EQUALS : Nat := 2
def LESSGREATER : Nat := 3
def SUM : Nat := 4
def PRODUCT : Nat := 5
def PREFIXOP : Nat := 6
def CALL : Nat := 7
def INDEX : Nat := 8

/-- The Go `precedences` map. -/
def precedences (t : TokenType) : Option Nat :=
  if t = OperatorEqual then some EQUALS
  else if t = OperatorNotEqual then some EQUALS
  else if t = OperatorLowerThan then some LESSGREATER
  else if t = OperatorGreaterThan then some LESSGREATER
  else if t = OperatorPlus then some SUM
  else if t = OperatorMinus then some SUM
  else if t = OperatorSlash then some PRODUCT
  else if t = OperatorAsterisk then some PRODUCT
  else if t = DelimiterLeftParenthesis then some CALL
  else if t = DelimiterLeftBracket then some INDEX
  else none

/-- The parser state: the tokens not yet received from the lexer channel,
the two tokens of lookahead, and the recorded error messages. -/
structure PState where
  toks : List Token
  curToken : Token
  peekToken : Token
  errors : List String
  deriving DecidableEq, Repr

/-- The parser's `nextToken`: `curToken = peekToken; peekToken = <-tokens`.
A receive on the exhausted (closed) channel yields the zero-valued token. -/
def PState.next (s : PState) : PState :=
  match s.toks with
  | [] => { s with curToken := s.peekToken, peekToken := zeroToken }
  | t :: ts => { s with curToken := s.peekToken, peekToken := t, toks := ts }

def recordError (s : PState) (msg : String) : PState :=
  { s with errors := s.errors ++ [msg] }

/-- Go `curTokenIs`. -/
def curTokenIs (s : PState) (t : TokenType) : Bool :=
  s.curToken.type == t

/-- Go `peekTokenIs`. -/
def peekTokenIs (s : PState) (t : TokenType) : Bool :=
  s.peekToken.type == t

/-- Go `peekError`. -/
def peekError (s : PState) (t : TokenType) : PState :=
  recordError s ("expected next token to be " ++ t ++ ", got " ++ s.peekToken.type ++ " instead")

/-- Go `noPrefixParseFnError`. -/
def noPrefixParseFnError (s : PState) (t : TokenType) : PState :=
  recordError s ("no prefix parse function for " ++ t ++ " found")

/-- Go `expectPeek`: advance on match, record `peekError` otherwise. -/
def expectPeek (s : PState) (t : TokenType) : Bool × PState :=
  if peekTokenIs s t then (true, s.next) else (false, peekError s t)

/-- Go `peekPrecedence`. -/
def peekPrecedence (s : PState) : Nat :=
  (precedences s.peekToken.type).getD LOWEST

/-- Go `curPrecedence`. -/
def curPrecedence (s : PState) : Nat :=
  (precedences s.curToken.type).getD LOWEST

/-- The token types registered with a prefix handler in `New`
(`registerPrefix` calls); `parseExpression` treats any other type as a
missing handler. -/
def hasPrefixFn (t : TokenType) : Bool :=
  t == Ident || t == TypeInteger || t == OperatorBang || t == OperatorMinus ||
  t == KeywordTrue || t == KeywordFalse || t == DelimiterLeftParenthesis ||
  t == KeywordIf || t == KeywordFunction || t == TypeString ||
  t == DelimiterLeftBracket || t == DelimiterLeftBrace

/-- The token types registered with an infix handler in `New`
(`registerInfix` calls). -/
def hasInfixFn (t : TokenType) : Bool :=
  t == OperatorPlus || t == OperatorMinus || t == OperatorSlash ||
  t == OperatorAsterisk || t == OperatorEqual || t == OperatorNotEqual ||
  t == OperatorLowerThan || t == OperatorGreaterThan ||
  t == DelimiterLeftParenthesis || t == DelimiterLeftBracket

/-- Go `parseIdentifier`. -/
def parseIdentifier (s : PState) : Expr × PState :=
  (.identE ⟨s.curToken, s.curToken.literal⟩, s)

/-- Go `parseBooleanLiteral`. -/
def parseBooleanLiteral (s : PState) : Expr × PState :=
  (.boolLit s.curToken (curTokenIs s KeywordTrue), s)

/-- Go `parseStringLiteral`. -/
def parseStringLiteral (s : PState) : Expr × PState :=
  (.strLit s.curToken s.curToken.literal, s)

/-- Go `parseIntegerLiteral`: `strconv.ParseInt(literal, 0, 64)`, recording
`could not parse %q as integer` and returning the nil expression on
failure. -/
def parseIntegerLiteral (s : PState) : Expr × PState :=
  match strconv.ParseIntBase0 s.curToken.literal with
  | some value => (.intLit s.curToken value, s)
  | none =>
      (.nilE, recordError s ("could not parse \"" ++ s.curToken.literal ++ "\" as integer"))

/-- Does the association list representing `hash.Pairs` already contain the
nil key? -/
def isNilKey (kv : Expr × Expr) : Bool :=
  match kv with
  | (.nilE, _) => true
  | _ => false

/-- Go `hash.Pairs[key] = value` on `map[ast.Expression]ast.Expression`:
the keys are interface values holding pointers to freshly allocated nodes,
so two non-nil keys are never equal and insertion appends a new entry; the
nil interface is the only key that can repeat, and then the entry is
overwritten. -/
def mapAssign (pairs : List (Expr × Expr)) (key value : Expr) : List (Expr × Expr) :=
  match key with
  | .nilE =>
      if pairs.any isNilKey then
        pairs.map (fun kv => if isNilKey kv then (Expr.nilE, value) else kv)
      else pairs ++ [(Expr.nilE, value)]
  | k => pairs ++ [(k, value)]

mutual

/-- Go `parseExpression`: look up the prefix handler of `curToken` (missing
handler records `noPrefixParseFnError` and returns a nil expression), then
run the infix loop. -/
def parseExpression : Nat → Nat → PState → Option (Expr × PState)
  | 0, _, _ => none
  | fuel + 1, precedence, s =>
    if hasPrefixFn s.curToken.type then do
      let (leftExp, s) ← callPrefixFn fuel s
      parseExpressionLoop fuel precedence leftExp s
    else some (.nilE, noPrefixParseFnError s s.curToken.type)

/-- The `for` loop of Go `parseExpression`. -/
def parseExpressionLoop : Nat → Nat → Expr → PState → Option (Expr × PState)
  | 0, _, _, _ => none
  | fuel + 1, precedence, leftExp, s =>
    if !peekTokenIs s DelimiterSemicolon && decide (precedence < peekPrecedence s) then
      if hasInfixFn s.peekToken.type then do
        let s := s.next
        let (leftExp, s) ← callInfixFn fuel leftExp s
        parseExpressionLoop fuel precedence leftExp s
      else some (leftExp, s)
    else some (leftExp, s)

/-- The dispatch through `p.prefixParseFns` for a registered token type. -/
def callPrefixFn : Nat → PState → Option (Expr × PState)
  | 0, _ => none
  | fuel + 1, s =>
    if s.curToken.type == Ident then some (parseIdentifier s)
    else if s.curToken.type == TypeInteger then some (parseIntegerLiteral s)
    else if s.curToken.type == OperatorBang then parsePrefixExpression fuel s
    else if s.curToken.type == OperatorMinus then parsePrefixExpression fuel s
    else if s.curToken.type == KeywordTrue then some (parseBooleanLiteral s)
    else if s.curToken.type == KeywordFalse then some (parseBooleanLiteral s)
    else if s.curToken.type == DelimiterLeftParenthesis then parseGroupedExpression fuel s
    else if s.curToken.type == KeywordIf then parseIfExpression fuel s
    else if s.curToken.type == KeywordFunction then parseFunctionLiteral fuel s
    else if s.curToken.type == TypeString then some (parseStringLiteral s)
    else if s.curToken.type == DelimiterLeftBracket then parseArrayLiteral fuel s
    else if s.curToken.type == DelimiterLeftBrace then parseHashLiteral fuel s
    else some (.nilE, s)

/-- The dispatch through `p.infixParseFns` (the operator token is current
after the loop's `nextToken`). -/
def callInfixFn : Nat → Expr → PState → Option (Expr × PState)
  | 0, _, _ => none
  | fuel + 1, leftExp, s =>
    if s.curToken.type == DelimiterLeftParenthesis then parseCallExpression fuel leftExp s
    else if s.curToken.type == DelimiterLeftBracket then parseIndexExpression fuel leftExp s
    else parseInfixExpression fuel leftExp s

/-- Go `parsePrefixExpression`. -/
def parsePrefixExpression : Nat → PState → Option (Expr × PState)
  | 0, _ => none
  | fuel + 1, s => do
    let tok := s.curToken
    let op := s.curToken.literal
    let s := s.next
    let (right, s) ← parseExpression fuel PREFIXOP s
    some (.prefixE tok op right, s)

/-- Go `parseInfixExpression`. -/
def parseInfixExpression : Nat → Expr → PState → Option (Expr × PState)
  | 0, _, _ => none
  | fuel + 1, leftExp, s => do
    let tok := s.curToken
    let op := s.curToken.literal
    let precedence := curPrecedence s
    let s := s.next
    let (right, s) ← parseExpression fuel precedence s
    some (.infixE tok leftExp op right, s)

/-- Go `parseGroupedExpression`. -/
def parseGroupedExpression : Nat → PState → Option (Expr × PState)
  | 0, _ => none
  | fuel + 1, s => do
    let s := s.next
    let (exp, s) ← parseExpression fuel LOWEST s
    let (ok, s) := expectPeek s DelimiterRightParenthesis
    if ok then some (exp, s) else some (.nilE, s)

/-- Go `parseIfExpression`.  Note that the returned `IfExpression` stores
`p.curToken` as it is after the blocks have been parsed. -/
def parseIfExpression : Nat → PState → Option (Expr × PState)
  | 0, _ => none
  | fuel + 1, s =>
    let (ok, s) := expectPeek s DelimiterLeftParenthesis
    if !ok then some (.nilE, s) else do
    let s := s.next
    let (condition, s) ← parseExpression fuel LOWEST s
    let (ok, s) := expectPeek s DelimiterRightParenthesis
    if !ok then some (.nilE, s) else do
    let (ok, s) := expectPeek s DelimiterLeftBrace
    if !ok then some (.nilE, s) else do
    let (consequence, s) ← parseBlockStatement fuel s
    if peekTokenIs s KeywordElse then do
      let s := s.next
      let (ok, s) := expectPeek s DelimiterLeftBrace
      if !ok then some (.nilE, s) else do
      let (alternative, s) ← parseBlockStatement fuel s
      some (.ifE s.curToken condition consequence alternative, s)
    else some (.ifE s.curToken condition consequence .nilB, s)

/-- Go `parseBlockStatement`.  The returned block stores `p.curToken` as it
is when the loop stops (the closing brace or `EOF`). -/
def parseBlockStatement : Nat → PState → Option (Block × PState)
  | 0, _ => none
  | fuel + 1, s =>
    let s := s.next
    parseBlockStatementLoop fuel [] s

/-- The statement loop of Go `parseBlockStatement`. -/
def parseBlockStatementLoop : Nat → List Stmt → PState → Option (Block × PState)
  | 0, _, _ => none
  | fuel + 1, stmts, s =>
    if !curTokenIs s DelimiterRightBrace && !curTokenIs s Eof then do
      let (stmt, s) ← parseStatement fuel s
      let stmts := match stmt with
        | some st => stmts ++ [st]
        | none => stmts
      parseBlockStatementLoop fuel stmts s.next
    else some (.mk s.curToken stmts, s)

/-- Go `parseFunctionLiteral`. -/
def parseFunctionLiteral : Nat → PState → Option (Expr × PState)
  | 0, _ => none
  | fuel + 1, s =>
    let tok := s.curToken
    let (ok, s) := expectPeek s DelimiterLeftParenthesis
    if !ok then some (.nilE, s) else do
    let (params, s) ← parseFunctionParameters fuel s
    let (ok, s) := expectPeek s DelimiterLeftBrace
    if !ok then some (.nilE, s) else do
    let (body, s) ← parseBlockStatement fuel s
    some (.funcLit tok params body, s)

/-- Go `parseFunctionParameters`: returns the Go nil slice (`none`) both
for an empty parameter list and on a missing closing parenthesis. -/
def parseFunctionParameters : Nat → PState → Option (Option (List Identifier) × PState)
  | 0, _ => none
  | fuel + 1, s =>
    if peekTokenIs s DelimiterRightParenthesis then some (none, s.next)
    else
      let s := s.next
      parseFunctionParametersLoop fuel [⟨s.curToken, s.curToken.literal⟩] s

/-- The comma loop of Go `parseFunctionParameters`. -/
def parseFunctionParametersLoop :
    Nat → List Identifier → PState → Option (Option (List Identifier) × PState)
  | 0, _, _ => none
  | fuel + 1, identifiers, s =>
    if peekTokenIs s DelimiterComma then
      let s := s.next.next
      parseFunctionParametersLoop fuel (identifiers ++ [⟨s.curToken, s.curToken.literal⟩]) s
    else
      let (ok, s) := expectPeek s DelimiterRightParenthesis
      if ok then some (some identifiers, s) else some (none, s)

/-- Go `parseCallExpression`. -/
def parseCallExpression : Nat → Expr → PState → Option (Expr × PState)
  | 0, _, _ => none
  | fuel + 1, function, s => do
    let tok := s.curToken
    let (args, s) ← parseExpressionList fuel DelimiterRightParenthesis s
    some (.callE tok function args, s)

/-- Go `parseArrayLiteral`. -/
def parseArrayLiteral : Nat → PState → Option (Expr × PState)
  | 0, _ => none
  | fuel + 1, s => do
    let tok := s.curToken
    let (elements, s) ← parseExpressionList fuel DelimiterRightBracket s
    some (.arrayLit tok elements, s)

/-- Go `parseExpressionList`: `none` is the Go nil slice returned on a
missing end token. -/
def parseExpressionList : Nat → TokenType → PState → Option (Option (List Expr) × PState)
  | 0, _, _ => none
  | fuel + 1, endT, s =>
    if peekTokenIs s endT then some (some [], s.next)
    else do
      let s := s.next
      let (e, s) ← parseExpression fuel LOWEST s
      parseExpressionListLoop fuel endT [e] s

/-- The comma loop of Go `parseExpressionList`. -/
def parseExpressionListLoop :
    Nat → TokenType → List Expr → PState → Option (Option (List Expr) × PState)
  | 0, _, _, _ => none
  | fuel + 1, endT, list, s =>
    if peekTokenIs s DelimiterComma then do
      let s := s.next.next
      let (e, s) ← parseExpression fuel LOWEST s
      parseExpressionListLoop fuel endT (list ++ [e]) s
    else
      let (ok, s) := expectPeek s endT
      if ok then some (some list, s) else some (none, s)

/-- Go `parseIndexExpression`. -/
def parseIndexExpression : Nat → Expr → PState → Option (Expr × PState)
  | 0, _, _ => none
  | fuel + 1, leftExp, s => do
    let tok := s.curToken
    let s := s.next
    let (index, s) ← parseExpression fuel LOWEST s
    let (ok, s) := expectPeek s DelimiterRightBracket
    if ok then some (.indexE tok leftExp index, s) else some (.nilE, s)

/-- Go `parseHashLiteral`. -/
def parseHashLiteral : Nat → PState → Option (Expr × PState)
  | 0, _ => none
  | fuel + 1, s =>
    parseHashLiteralLoop fuel s.curToken [] s

/-- The pair loop of Go `parseHashLiteral`. -/
def parseHashLiteralLoop :
    Nat → Token → List (Expr × Expr) → PState → Option (Expr × PState)
  | 0, _, _, _ => none
  | fuel + 1, tok, pairs, s =>
    if !peekTokenIs s DelimiterRightBrace then do
      let s := s.next
      let (key, s) ← parseExpression fuel LOWEST s
      let (ok, s) := expectPeek s DelimiterColon
      if !ok then some (.nilE, s) else do
      let s := s.next
      let (value, s) ← parseExpression fuel LOWEST s
      let pairs := mapAssign pairs key value
      if !peekTokenIs s DelimiterRightBrace then
        let (ok, s) := expectPeek s DelimiterComma
        if !ok then some (.nilE, s) else parseHashLiteralLoop fuel tok pairs s
      else parseHashLiteralLoop fuel tok pairs s
    else
      let (ok, s) := expectPeek s DelimiterRightBrace
      if ok then some (.hashLit tok pairs, s) else some (.nilE, s)

/-- Go `parseStatement`. -/
def parseStatement : Nat → PState → Option (Option Stmt × PState)
  | 0, _ => none
  | fuel + 1, s =>
    if s.curToken.type == KeywordLet then parseLetStatement fuel s
    else if s.curToken.type == KeywordReturn then parseReturnStatement fuel s
    else parseExpressionStatement fuel s

/-- Go `parseLetStatement`.  Its `return nil` is a typed-nil
`*ast.LetStatement` (`Stmt.nilLetS`), not the nil interface. -/
def parseLetStatement : Nat → PState → Option (Option Stmt × PState)
  | 0, _ => none
  | fuel + 1, s =>
    let tok := s.curToken
    let (ok, s) := expectPeek s Ident
    if !ok then some (some .nilLetS, s) else
    let name : Identifier := ⟨s.curToken, s.curToken.literal⟩
    let (ok, s) := expectPeek s OperatorAssign
    if !ok then some (some .nilLetS, s) else do
    let s := s.next
    let (value, s) ← parseExpression fuel LOWEST s
    let s := if peekTokenIs s DelimiterSemicolon then s.next else s
    some (some (.letS tok name value), s)

/-- Go `parseReturnStatement`. -/
def parseReturnStatement : Nat → PState → Option (Option Stmt × PState)
  | 0, _ => none
  | fuel + 1, s => do
    let tok := s.curToken
    let s := s.next
    let (returnValue, s) ← parseExpression fuel LOWEST s
    let s := if peekTokenIs s DelimiterSemicolon then s.next else s
    some (some (.returnS tok returnValue), s)

/-- Go `parseExpressionStatement`. -/
def parseExpressionStatement : Nat → PState → Option (Option Stmt × PState)
  | 0, _ => none
  | fuel + 1, s => do
    let tok := s.curToken
    let (e, s) ← parseExpression fuel LOWEST s
    let s := if peekTokenIs s DelimiterSemicolon then s.next else s
    some (some (.exprS tok e), s)

end

/-- The top-level loop of Go `ParseProgram`. -/
def parseProgramLoop : Nat → List Stmt → PState → Option (List Stmt × PState)
  | 0, _, _ => none
  | fuel + 1, stmts, s =>
    if s.curToken.type == Eof then some (stmts, s)
    else do
      let (stmt, s) ← parseStatement fuel s
      let stmts := match stmt with
        | some st => stmts ++ [st]
        | none => stmts
      parseProgramLoop fuel stmts s.next

/-- What Go `ParseProgram` returns: the program, the recorded error
messages, and the aggregate `error` (`none` is Go `nil`). -/
structure ParseOutcome where
  program : List Stmt
  errList : List String
  err : Option String

/-- Go `ParseProgram` after the loop: a single aggregate error exactly when
messages were recorded. -/
def ParseProgram (fuel : Nat) (s : PState) : Option ParseOutcome :=
  match parseProgramLoop fuel [] s with
  | none => none
  | some (stmts, s) =>
    if s.errors.length > 0 then
      some ⟨stmts, s.errors, some ("error while parsing input: " ++ ast.joinComma s.errors)⟩
    else some ⟨stmts, s.errors, none⟩

/-- Go `New`: read two tokens so `curToken` and `peekToken` are both set. -/
def newParserState (ts : List Token) : PState :=
  PState.next (PState.next ⟨ts, zeroToken, zeroToken, []⟩)

/-- Lex then parse an input string (Go `lexer.New` + `parser.New` +
`ParseProgram`). -/
def parseInput (fuel : Nat) (input : String) : Option ParseOutcome :=
  ParseProgram fuel (newParserState (lexer.lexTokens input.data))

/-- The parsed program's `String()` form, when parsing finished. -/
def parsedString (fuel : Nat) (input : String) : Option String :=
  (parseInput fuel input).map (fun o => ast.programString fuel o.program)

end parser

namespace object

/-- The runtime value kinds of `pkg/object/object.go` (the part of the
value model present in the sources: `Integer`, `Boolean`, `Null`). -/
inductive Object : Type where
  | integer (value : Int)
  | boolean (value : Bool)
  | null
  deriving DecidableEq, Repr

/-- The `Inspect()` methods: decimal for `Integer` (`%d`), `true`/`false`
for `Boolean` (`%t`), `"null"` for `Null`. -/
def Object.Inspect : Object → String
  | .integer v => toString v
  | .boolean b => if b then "true" else "false"
  | .null => "null"

end object

namespace repl

/-- The print step at the end of the `Start` loop (`pkg/repl/repl.go`):
`evaluated := evaluator.Eval(program, env)` is an interface value, `none`
when it is Go `nil`; the value is printed, followed by `lineBreak`,
exactly when it is non-nil. -/
def renderEvaluated (evaluated : Option object.Object) : String :=
  match evaluated with
  | some v => v.Inspect ++ "\n"
  | none => ""

end repl

namespace lexer

open token

theorem countWhile_all (p : Char → Bool) (l : List Char) (h : ∀ c ∈ l, p c = true) :
    countWhile p l = l.length := by
  induction l with
  | nil => rfl
  | cons c cs ih =>
      simp only [countWhile, h c (List.mem_cons_self c cs), if_true, List.length_cons]
      rw [ih (fun d hd => h d (List.mem_cons_of_mem c hd))]

theorem peekChar_lt (input : List Char) (pos : Nat)
    (h : peekChar input pos ≠ Char.ofNat 0) : pos < input.length := by
  by_contra hge
  simp only [peekChar, if_neg hge] at h
  exact h rfl

theorem peekChar_eq_getD (input : List Char) (pos : Nat) (h : pos < input.length) :
    peekChar input pos = input.getD pos (Char.ofNat 0) := by
  simp [peekChar, h]

/-- The loop-shaped unfolding of `readWhile`, valid whenever the loop test
refuses the `0` sentinel (true of every instantiation used by the lexer). -/
theorem readWhile_unfold (p : Char → Bool) (input : List Char) (pos : Nat)
    (h0 : p (Char.ofNat 0) = false) :
    readWhile p input pos =
      if p (peekChar input pos) then readWhile p input (pos + 1) else pos := by
  by_cases h : pos < input.length
  · have hd : input.drop pos = input.getD pos (Char.ofNat 0) :: input.drop (pos + 1) := by
      rw [List.getD_eq_getElem input (Char.ofNat 0) h]
      exact List.drop_eq_getElem_cons h
    rw [readWhile, readWhile, hd, countWhile, peekChar_eq_getD input pos h]
    by_cases hp : p (input.getD pos (Char.ofNat 0)) = true
    · rw [if_pos hp, if_pos hp]; omega
    · rw [if_neg hp, if_neg hp]; omega
  · have hd : input.drop pos = [] := List.drop_eq_nil_of_le (by omega)
    have hz : peekChar input pos = Char.ofNat 0 := by simp [peekChar, h]
    rw [readWhile, hd, countWhile, hz, h0]
    simp

theorem readWhile_ge (p : Char → Bool) (input : List Char) (pos : Nat) :
    pos ≤ readWhile p input pos :=
  Nat.le_add_right pos _

theorem readWhile_progress (p : Char → Bool) (input : List Char) (pos : Nat)
    (h0 : p (Char.ofNat 0) = false) (h : p (peekChar input pos) = true) :
    pos + 1 ≤ readWhile p input pos := by
  rw [readWhile_unfold p input pos h0, if_pos h]
  exact Nat.le_trans (Nat.le_refl _) (readWhile_ge p input (pos + 1))

/-- After the loop the peeked character fails the test. -/
theorem readWhile_stop (p : Char → Bool) (input : List Char)
    (h0 : p (Char.ofNat 0) = false) (pos : Nat) :
    p (peekChar input (readWhile p input pos)) = false := by
  generalize hn : input.length - pos = n
  induction n generalizing pos with
  | zero =>
      have hz : peekChar input pos = Char.ofNat 0 := by
        by_cases h : pos < input.length
        · omega
        · simp [peekChar, h]
      rw [readWhile_unfold p input pos h0, hz, h0, if_neg (by simp)]
      rw [hz, h0]
  | succ n ih =>
      rw [readWhile_unfold p input pos h0]
      by_cases h : p (peekChar input pos) = true
      · rw [if_pos h]
        have hlt : pos < input.length := by
          have := peekChar_lt input pos (fun hc => by rw [hc, h0] at h; exact Bool.false_ne_true h)
          exact this
        exact ih (pos + 1) (by omega)
      · rw [if_neg h]
        simpa using h

theorem skipWhitespace_ge (input : List Char) (pos : Nat) :
    pos ≤ skipWhitespace input pos :=
  readWhile_ge _ input pos

theorem skipWhitespace_stop (input : List Char) (pos : Nat) :
    isWhitespace (peekChar input (skipWhitespace input pos)) = false :=
  readWhile_stop isWhitespace input (by decide) pos

theorem skipWhitespace_fix (input : List Char) (pos : Nat)
    (h : isWhitespace (peekChar input pos) = false) :
    skipWhitespace input pos = pos := by
  rw [skipWhitespace, readWhile_unfold isWhitespace input pos (by decide), h]
  simp

theorem LookupIdent_ne_eof (s : String) : LookupIdent s ≠ Eof := by
  unfold LookupIdent
  split_ifs <;> decide

end lexer

namespace lexer

open token

theorem peekChar_toNat_lt (input : List Char) (pos : Nat)
    (h : (peekChar input pos).toNat ≠ 0) : pos < input.length := by
  by_contra hge
  simp only [peekChar, if_neg hge] at h
  exact h (by decide)

/-- At the `0` sentinel the switch emits `EOF` with empty literal and does
not advance. -/
theorem tokenAt_zero (input : List Char) (pos : Nat)
    (h : (peekChar input pos).toNat = 0) :
    tokenAt input pos = (⟨Eof, ""⟩, pos) := by
  simp [tokenAt, h]

set_option maxHeartbeats 1000000 in
theorem tokenAt_nonzero (input : List Char) (pos : Nat)
    (h : (peekChar input pos).toNat ≠ 0) :
    pos < input.length ∧ pos + 1 ≤ (tokenAt input pos).2 ∧
      (tokenAt input pos).1.type ≠ Eof := by
  refine ⟨peekChar_toNat_lt input pos h, ?_⟩
  have hs := readWhile_ge insideString input (pos + 1)
  have hL := readWhile_progress isLetter input pos (by decide)
  have hD := readWhile_progress isDigit input pos (by decide)
  unfold tokenAt
  dsimp only
  by_cases h1 : (peekChar input pos).toNat = 34
  · rw [if_pos h1]
    exact ⟨Nat.le_succ_of_le hs, (by decide : TypeString ≠ Eof)⟩
  rw [if_neg h1]
  by_cases h2 : (peekChar input pos).toNat = 43
  · rw [if_pos h2]
    exact ⟨Nat.le.refl, (by decide : OperatorPlus ≠ Eof)⟩
  rw [if_neg h2]
  by_cases h3 : (peekChar input pos).toNat = 45
  · rw [if_pos h3]
    exact ⟨Nat.le.refl, (by decide : OperatorMinus ≠ Eof)⟩
  rw [if_neg h3]
  by_cases h4 : (peekChar input pos).toNat = 47
  · rw [if_pos h4]
    exact ⟨Nat.le.refl, (by decide : OperatorSlash ≠ Eof)⟩
  rw [if_neg h4]
  by_cases h5 : (peekChar input pos).toNat = 42
  · rw [if_pos h5]
    exact ⟨Nat.le.refl, (by decide : OperatorAsterisk ≠ Eof)⟩
  rw [if_neg h5]
  by_cases h6 : (peekChar input pos).toNat = 60
  · rw [if_pos h6]
    exact ⟨Nat.le.refl, (by decide : OperatorLowerThan ≠ Eof)⟩
  rw [if_neg h6]
  by_cases h7 : (peekChar input pos).toNat = 62
  · rw [if_pos h7]
    exact ⟨Nat.le.refl, (by decide : OperatorGreaterThan ≠ Eof)⟩
  rw [if_neg h7]
  by_cases h8 : (peekChar input pos).toNat = 59
  · rw [if_pos h8]
    exact ⟨Nat.le.refl, (by decide : DelimiterSemicolon ≠ Eof)⟩
  rw [if_neg h8]
  by_cases h9 : (peekChar input pos).toNat = 40
  · rw [if_pos h9]
    exact ⟨Nat.le.refl, (by decide : DelimiterLeftParenthesis ≠ Eof)⟩
  rw [if_neg h9]
  by_cases h10 : (peekChar input pos).toNat = 41
  · rw [if_pos h10]
    exact ⟨Nat.le.refl, (by decide : DelimiterRightParenthesis ≠ Eof)⟩
  rw [if_neg h10]
  by_cases h11 : (peekChar input pos).toNat = 44
  · rw [if_pos h11]
    exact ⟨Nat.le.refl, (by decide : DelimiterComma ≠ Eof)⟩
  rw [if_neg h11]
  by_cases h12 : (peekChar input pos).toNat = 123
  · rw [if_pos h12]
    exact ⟨Nat.le.refl, (by decide : DelimiterLeftBrace ≠ Eof)⟩
  rw [if_neg h12]
  by_cases h13 : (peekChar input pos).toNat = 125
  · rw [if_pos h13]
    exact ⟨Nat.le.refl, (by decide : DelimiterRightBrace ≠ Eof)⟩
  rw [if_neg h13]
  by_cases h14 : (peekChar input pos).toNat = 91
  · rw [if_pos h14]
    exact ⟨Nat.le.refl, (by decide : DelimiterLeftBracket ≠ Eof)⟩
  rw [if_neg h14]
  by_cases h15 : (peekChar input pos).toNat = 93
  · rw [if_pos h15]
    exact ⟨Nat.le.refl, (by decide : DelimiterRightBracket ≠ Eof)⟩
  rw [if_neg h15]
  by_cases h16 : (peekChar input pos).toNat = 58
  · rw [if_pos h16]
    exact ⟨Nat.le.refl, (by decide : DelimiterColon ≠ Eof)⟩
  rw [if_neg h16]
  by_cases h17 : (peekChar input pos).toNat = 0
  · exact absurd h17 h
  rw [if_neg h17]
  by_cases h18 : (peekChar input pos).toNat = 61
  · rw [if_pos h18]
    by_cases h18b : peekTwoChars input pos = OperatorEqual
    · rw [if_pos h18b]
      exact ⟨Nat.le_succ_of_le Nat.le.refl, (by decide : OperatorEqual ≠ Eof)⟩
    · rw [if_neg h18b]
      exact ⟨Nat.le.refl, (by decide : OperatorAssign ≠ Eof)⟩
  rw [if_neg h18]
  by_cases h19 : (peekChar input pos).toNat = 33
  · rw [if_pos h19]
    by_cases h19b : peekTwoChars input pos = OperatorNotEqual
    · rw [if_pos h19b]
      exact ⟨Nat.le_succ_of_le Nat.le.refl, (by decide : OperatorNotEqual ≠ Eof)⟩
    · rw [if_neg h19b]
      exact ⟨Nat.le.refl, (by decide : OperatorBang ≠ Eof)⟩
  rw [if_neg h19]
  by_cases h20 : isLetter (peekChar input pos) = true
  · rw [if_pos h20]
    exact ⟨hL h20, LookupIdent_ne_eof _⟩
  rw [if_neg h20]
  by_cases h21 : isDigit (peekChar input pos) = true
  · rw [if_pos h21]
    exact ⟨hD h21, (by decide : TypeInteger ≠ Eof)⟩
  rw [if_neg h21]
  exact ⟨Nat.le.refl, (by decide : Illegal ≠ Eof)⟩

end lexer

namespace lexer

open token

theorem nextToken_progress (input : List Char) (pos : Nat)
    (h : (nextToken input pos).1.type ≠ Eof) :
    pos < input.length ∧ pos + 1 ≤ (nextToken input pos).2 := by
  have hq := skipWhitespace_ge input pos
  by_cases hz : (peekChar input (skipWhitespace input pos)).toNat = 0
  · rw [nextToken, tokenAt_zero input _ hz] at h
    exact absurd rfl h
  · obtain ⟨hlt, hle, _⟩ := tokenAt_nonzero input (skipWhitespace input pos) hz
    rw [nextToken]
    omega

theorem nextToken_eof (input : List Char) (pos : Nat)
    (h : (nextToken input pos).1.type = Eof) :
    nextToken input pos = (⟨Eof, ""⟩, skipWhitespace input pos) ∧
      (peekChar input (skipWhitespace input pos)).toNat = 0 := by
  by_cases hz : (peekChar input (skipWhitespace input pos)).toNat = 0
  · exact ⟨by rw [nextToken, tokenAt_zero input _ hz], hz⟩
  · obtain ⟨_, _, hne⟩ := tokenAt_nonzero input (skipWhitespace input pos) hz
    rw [nextToken] at h
    exact absurd h hne

theorem nextToken_at_zero (input : List Char) (pos : Nat)
    (h : (peekChar input pos).toNat = 0) :
    nextToken input pos = (⟨Eof, ""⟩, pos) := by
  have hfix : skipWhitespace input pos = pos :=
    skipWhitespace_fix input pos (by simp [isWhitespace, h])
  rw [nextToken, hfix, tokenAt_zero input pos h]

/-- Once `nextToken` has produced `EOF` the cursor is stuck and every
further call produces `EOF` again. -/
theorem nextToken_idem (input : List Char) (pos : Nat)
    (h : (nextToken input pos).1.type = Eof) :
    nextToken input ((nextToken input pos).2) = (⟨Eof, ""⟩, (nextToken input pos).2) := by
  obtain ⟨heq, hz⟩ := nextToken_eof input pos h
  rw [heq]
  exact nextToken_at_zero input _ hz

theorem nextToken_eof_forever (input : List Char) (pos : Nat)
    (h : (nextToken input pos).1.type = Eof) (k : Nat) :
    iterPos input k (nextToken input pos).2 = (nextToken input pos).2 ∧
      nextToken input (iterPos input k (nextToken input pos).2) =
        (⟨Eof, ""⟩, (nextToken input pos).2) := by
  induction k with
  | zero => exact ⟨rfl, nextToken_idem input pos h⟩
  | succ k ih =>
      have hidem := nextToken_idem input pos h
      have hstep : iterPos input (k + 1) (nextToken input pos).2 =
          iterPos input k (nextToken input pos).2 := by
        show iterPos input k (nextToken input (nextToken input pos).2).2 = _
        rw [hidem]
      rw [hstep]
      exact ih

/-- Enough fuel makes the producer loop end in exactly one `EOF` token,
with empty literal, after only non-`EOF` tokens. -/
theorem tokensAux_spec (input : List Char) :
    ∀ n pos, input.length + 1 - pos < n →
      ∃ ts, tokensAux n input pos = ts ++ [⟨Eof, ""⟩] ∧ ∀ t ∈ ts, t.type ≠ Eof := by
  intro n
  induction n with
  | zero => intro pos h; omega
  | succ n ih =>
      intro pos h
      rcases hnt : nextToken input pos with ⟨t, q⟩
      by_cases he : t.type = Eof
      · obtain ⟨heq, _⟩ := nextToken_eof input pos (by rw [hnt]; exact he)
        rw [hnt] at heq
        obtain ⟨ht, -⟩ := Prod.mk.inj heq
        refine ⟨[], ?_, by simp⟩
        simp [tokensAux, hnt, he, ht]
      · have hprog := nextToken_progress input pos (by rw [hnt]; exact he)
        rw [hnt] at hprog
        obtain ⟨ts, hts, hne⟩ := ih q (by omega)
        refine ⟨t :: ts, ?_, ?_⟩
        · simp [tokensAux, hnt, he, hts]
        · intro u hu
          rcases List.mem_cons.mp hu with rfl | hmem
          · exact he
          · exact hne u hmem

/-- The channel contents equal the pull-style stream truncated after its
first `EOF`. -/
theorem tokensAux_eq_pull (input : List Char) :
    ∀ n pos, tokensAux n input pos = takeThroughEof (pullStream input n pos) := by
  intro n
  induction n with
  | zero => intro pos; rfl
  | succ n ih =>
      intro pos
      rcases hnt : nextToken input pos with ⟨t, q⟩
      by_cases he : t.type = Eof
      · simp [tokensAux, pullStream, takeThroughEof, hnt, he]
      · simp [tokensAux, pullStream, takeThroughEof, hnt, he, ih q]

theorem lexTokens_split (input : List Char) :
    ∃ ts, lexTokens input = ts ++ [⟨Eof, ""⟩] ∧ ∀ t ∈ ts, t.type ≠ Eof :=
  tokensAux_spec input (input.length + 2) 0 (by omega)

/-- A whitespace-only input lexes to the single `EOF` token. -/
theorem lexTokens_ws (input : List Char) (h : ∀ c ∈ input, isWhitespace c = true) :
    lexTokens input = [⟨Eof, ""⟩] := by
  have hskip : skipWhitespace input 0 = input.length := by
    rw [skipWhitespace, readWhile]
    simp [countWhile_all isWhitespace input h]
  have hz : (peekChar input (input.length)).toNat = 0 := by
    simp [peekChar]
  have hnt : nextToken input 0 = (⟨Eof, ""⟩, input.length) := by
    rw [nextToken, hskip, tokenAt_zero input _ hz]
  rw [lexTokens]
  have : input.length + 2 = (input.length + 1) + 1 := rfl
  rw [this]
  simp [tokensAux, hnt]

end lexer

namespace parser

open token ast

/-- The parser state after the token channel is exhausted and both
lookahead tokens are the zero value: every further `nextToken` returns to
this same state. -/
def badState (errs : List String) : PState :=
  ⟨[], zeroToken, zeroToken, errs⟩

theorem next_badState (errs : List String) :
    PState.next (badState errs) = badState errs := rfl

/-- In the exhausted state, one `parseStatement` terminates: the zero
token type has no prefix handler, so an error is recorded, and an
expression statement with a nil expression is produced while the state
stays exhausted. -/
theorem parseStatement_bad (f : Nat) (errs : List String) :
    parseStatement (f + 3) (badState errs) =
      some (some (.exprS zeroToken .nilE),
        badState (errs ++ ["no prefix parse function for  found"])) := rfl

/-- The top-level loop of `ParseProgram` never terminates from the
exhausted state: its current token never becomes `EOF` again. -/
theorem parseProgramLoop_bad :
    ∀ (f : Nat) (acc : List Stmt) (errs : List String),
      parseProgramLoop f acc (badState errs) = none := by
  intro f
  induction f using Nat.strong_induction_on with
  | _ f ih =>
    intro acc errs
    match f with
    | 0 => rfl
    | 1 => rfl
    | 2 => rfl
    | 3 => rfl
    | (m + 4) =>
      have hstep : parseProgramLoop (m + 4) acc (badState errs) =
          parseProgramLoop (m + 3) (acc ++ [Stmt.exprS zeroToken Expr.nilE])
            (badState (errs ++ ["no prefix parse function for  found"])) := rfl
      rw [hstep]
      exact ih (m + 3) (by omega) _ _

/-- `ParseProgram` (hence the whole lex-and-parse pipeline) never returns
on this input: no amount of fuel suffices. -/
def parseInputDiverges (input : String) : Prop :=
  ∀ fuel, parseInput fuel input = none

end parser

namespace strconv

/-- The decimal value of a digit string (what the specification calls "the
decimal value of that literal"). -/
def decimalValue (s : String) : Nat :=
  s.data.foldl (fun a c => a * 10 + digitVal c) 0

theorem parseDigits_base10 (l : List Char) (hall : ∀ c ∈ l, lexer.isDigit c = true) :
    ∀ acc, parseDigits 10 acc l = some (l.foldl (fun a c => a * 10 + digitVal c) acc) := by
  induction l with
  | nil => intro acc; rfl
  | cons c cs ih =>
      intro acc
      have hc : lexer.isDigit c = true := hall c (List.mem_cons_self c cs)
      have hd : digitVal c < 10 := by
        simp [lexer.isDigit] at hc
        simp [digitVal]
        omega
      simp only [parseDigits, if_pos hd, List.foldl_cons]
      exact ih (fun d hd2 => hall d (List.mem_cons_of_mem c hd2)) _

end strconv

namespace lexer

open token

/-- From any cursor, finitely many pull-style calls reach `EOF`. -/
theorem eventually_eof (input : List Char) :
    ∀ pos, ∃ k, (nextToken input (iterPos input k pos)).1.type = Eof := by
  have main : ∀ n pos, input.length + 1 - pos ≤ n →
      ∃ k, (nextToken input (iterPos input k pos)).1.type = Eof := by
    intro n
    induction n with
    | zero =>
        intro pos h
        refine ⟨0, ?_⟩
        have hz : (peekChar input pos).toNat = 0 := by
          have : ¬pos < input.length := by omega
          simp [peekChar, this]
        show (nextToken input pos).1.type = Eof
        rw [nextToken_at_zero input pos hz]
    | succ n ih =>
        intro pos h
        by_cases he : (nextToken input pos).1.type = Eof
        · exact ⟨0, he⟩
        · obtain ⟨hlt, hgt⟩ := nextToken_progress input pos he
          obtain ⟨k, hk⟩ := ih (nextToken input pos).2 (by omega)
          exact ⟨k + 1, hk⟩
  intro pos
  exact main (input.length + 1 - pos) pos (Nat.le_refl _)

end lexer

/-!
The claims.
-/

/-- C1: the parser binds operators by the ladder
`LOWEST < EQUALS < LESSGREATER < SUM < PRODUCT < PREFIX < CALL < INDEX`
(the precedence constants ascend in that order, and the expression loop
recurses only on strictly higher peek precedence, so equal-precedence infix
operators associate to the left); consequently the fully parenthesized
String forms of the reference inputs equal the reference strings:
`"a + b * c + d / e - f"` parses to `"(((a + (b * c)) + (d / e)) - f)"`,
`"-a * b"` to `"((-a) * b)"`, and `"a * [1, 2, 3, 4][b * c] * d"` to
`"((a * ([1, 2, 3, 4][(b * c)])) * d)"`, each without parser errors. -/
theorem c1_precedence_ladder_and_reference_strings :
    (parser.LOWEST < parser.EQUALS ∧ parser.EQUALS < parser.LESSGREATER ∧
      parser.LESSGREATER < parser.SUM ∧ parser.SUM < parser.PRODUCT ∧
      parser.PRODUCT < parser.PREFIXOP ∧ parser.PREFIXOP < parser.CALL ∧
      parser.CALL < parser.INDEX) ∧
    parser.parsedString 40 "a + b * c + d / e - f" =
      some "(((a + (b * c)) + (d / e)) - f)" ∧
    (parser.parseInput 40 "a + b * c + d / e - f").map parser.ParseOutcome.err =
      some none ∧
    parser.parsedString 40 "-a * b" = some "((-a) * b)" ∧
    (parser.parseInput 40 "-a * b").map parser.ParseOutcome.err = some none ∧
    parser.parsedString 40 "a * [1, 2, 3, 4][b * c] * d" =
      some "((a * ([1, 2, 3, 4][(b * c)])) * d)" ∧
    (parser.parseInput 40 "a * [1, 2, 3, 4][b * c] * d").map parser.ParseOutcome.err =
      some none :=
  ⟨by decide, rfl, rfl, rfl, rfl, rfl, rfl⟩

/-- C2: mid-input, `==` and `!=` are single two-character tokens, but when
they are the final two characters of the input `peekTwoChars` (whose test
is `position+2 >= len(input)`) returns `""`, so the lexer emits two
one-character tokens instead: `"=="` lexes as two ASSIGN tokens and the
`!=` of `"a!="` lexes as BANG then ASSIGN, contradicting the claim. -/
theorem c2_two_char_lookahead_fails_at_end_of_input :
    lexer.lexTokens "==".data =
      [⟨token.OperatorAssign, "="⟩, ⟨token.OperatorAssign, "="⟩, ⟨token.Eof, ""⟩] ∧
    lexer.lexTokens "a!=".data =
      [⟨token.Ident, "a"⟩, ⟨token.OperatorBang, "!"⟩, ⟨token.OperatorAssign, "="⟩,
        ⟨token.Eof, ""⟩] ∧
    lexer.lexTokens "a==b".data =
      [⟨token.Ident, "a"⟩, ⟨token.OperatorEqual, "=="⟩, ⟨token.Ident, "b"⟩,
        ⟨token.Eof, ""⟩] ∧
    lexer.lexTokens "a!=b".data =
      [⟨token.Ident, "a"⟩, ⟨token.OperatorNotEqual, "!="⟩, ⟨token.Ident, "b"⟩,
        ⟨token.Eof, ""⟩] :=
  ⟨rfl, rfl, rfl, rfl⟩

/-- C3 counterexample: `parseIntegerLiteral` calls
`strconv.ParseInt(literal, 0, 64)` with base `0`, so the all-digit literal
`"0123"` is read as octal and yields the value 83, not the decimal value
123 the claim asserts. -/
theorem c3_counterexample_leading_zero_reads_octal :
    parser.parseInput 20 "0123" =
      some ⟨[ast.Stmt.exprS ⟨token.TypeInteger, "0123"⟩
        (ast.Expr.intLit ⟨token.TypeInteger, "0123"⟩ 83)], [], none⟩ ∧
    (83 : Int) ≠ 123 :=
  ⟨rfl, by decide⟩

/-- C3 amended: for an integer token whose literal is a non-empty decimal
digit string, if the literal is `"0"` or has no leading zero and its
decimal value fits in a signed 64-bit integer, `parseIntegerLiteral`
produces an `IntegerLiteral` with that decimal value and records no error;
a literal with a leading zero is interpreted in base 8 (`"0123"` gives 83),
and the could-not-parse error is recorded exactly when the literal is
invalid under that interpretation (e.g. `"09"`) or out of range. -/
theorem c3_amended_base0_integer_parsing :
    (∀ (st : parser.PState) (lit : String),
      st.curToken = ⟨token.TypeInteger, lit⟩ →
      lit.data ≠ [] →
      (∀ c ∈ lit.data, lexer.isDigit c = true) →
      (lit.data.head? = some '0' → lit = "0") →
      strconv.decimalValue lit ≤ 2 ^ 63 - 1 →
      parser.parseIntegerLiteral st =
        (ast.Expr.intLit st.curToken (strconv.decimalValue lit), st)) ∧
    parser.parseInput 20 "0123" =
      some ⟨[ast.Stmt.exprS ⟨token.TypeInteger, "0123"⟩
        (ast.Expr.intLit ⟨token.TypeInteger, "0123"⟩ 83)], [], none⟩ ∧
    parser.parseInput 20 "09" =
      some ⟨[ast.Stmt.exprS ⟨token.TypeInteger, "09"⟩ ast.Expr.nilE],
        ["could not parse \"09\" as integer"],
        some "error while parsing input: could not parse \"09\" as integer"⟩ := by
  refine ⟨?_, rfl, rfl⟩
  intro st lit hcur hne hdig hlead hrange
  rcases hdata : lit.data with _ | ⟨c, cs⟩
  · exact absurd hdata hne
  have hcond : ¬(c = '0' ∧ cs ≠ []) := by
    rintro ⟨rfl, hcs⟩
    have h0 : lit = "0" := hlead (by rw [hdata]; rfl)
    rw [h0] at hdata
    have : cs = [] := by
      have : ('0' :: [] : List Char) = '0' :: cs := hdata
      exact (List.cons.inj this).2.symm
    exact hcs this
  have hdv : strconv.decimalValue lit =
      (c :: cs).foldl (fun a c => a * 10 + strconv.digitVal c) 0 := by
    rw [strconv.decimalValue, hdata]
  have hfold := strconv.parseDigits_base10 (c :: cs) (by rw [← hdata]; exact hdig) 0
  have hP : strconv.ParseIntBase0 lit = some ((strconv.decimalValue lit : Nat) : Int) := by
    unfold strconv.ParseIntBase0
    rw [hdata]
    simp only [if_neg hcond, hfold, ← hdv, if_pos hrange]
  unfold parser.parseIntegerLiteral
  rw [hcur]
  dsimp only
  rw [hP]

/-- C3 amended, witness at the literal `"45"`. -/
theorem c3_amended_base0_integer_parsing_witness :
    parser.parseIntegerLiteral
        ⟨[], ⟨token.TypeInteger, "45"⟩, token.zeroToken, []⟩ =
      (ast.Expr.intLit ⟨token.TypeInteger, "45"⟩ 45,
        ⟨[], ⟨token.TypeInteger, "45"⟩, token.zeroToken, []⟩) :=
  c3_amended_base0_integer_parsing.1
    ⟨[], ⟨token.TypeInteger, "45"⟩, token.zeroToken, []⟩ "45" rfl (by decide)
    (by decide) (by decide) (by decide)

/-- C4: the claim says an if-expression stores the `if` keyword token and
a block statement stores the opening `{` token; the parser instead builds
both nodes with `p.curToken` as it stands after the block has been parsed,
which for `"if (x) { y }"` is the closing `}` token in both nodes — this
contradicts the comments on `ast.IfExpression` ("The 'if' token") and
`ast.BlockStatement` ("the { token") in `pkg/ast/ast.go`. -/
theorem c4_if_and_block_store_closing_token :
    parser.parseInput 30 "if (x) \x7b y \x7d" =
      some ⟨[ast.Stmt.exprS ⟨token.KeywordIf, "if"⟩
        (ast.Expr.ifE ⟨token.DelimiterRightBrace, "\x7d"⟩
          (ast.Expr.identE ⟨⟨token.Ident, "x"⟩, "x"⟩)
          (ast.Block.mk ⟨token.DelimiterRightBrace, "\x7d"⟩
            [ast.Stmt.exprS ⟨token.Ident, "y"⟩
              (ast.Expr.identE ⟨⟨token.Ident, "y"⟩, "y"⟩)])
          ast.Block.nilB)], [], none⟩ ∧
    (⟨token.DelimiterRightBrace, "\x7d"⟩ : token.Token) ≠ ⟨token.KeywordIf, "if"⟩ ∧
    (⟨token.DelimiterRightBrace, "\x7d"⟩ : token.Token) ≠
      ⟨token.DelimiterLeftBrace, "\x7b"⟩ :=
  ⟨rfl, by decide, by decide⟩

/-- C5: `ParseProgram` does not return on every input.  On `"return"` the
return-statement parse consumes the `EOF` token; the lexer goroutine has
closed the channel, so every further receive yields the zero-valued token,
whose type `""` is never `EOF`: the top-level loop runs forever (recording
an error each round) and no fuel makes the embedded run finish, while the
claim says the partial program and the aggregate error are returned. -/
theorem c5_parse_program_never_returns_on_consumed_eof :
    parser.parseInputDiverges "return" := by
  intro fuel
  match fuel with
  | 0 => rfl
  | 1 => rfl
  | 2 => rfl
  | 3 => rfl
  | (m + 4) =>
    have hstep : parser.parseProgramLoop (m + 4) []
        (parser.newParserState (lexer.lexTokens "return".data)) =
        parser.parseProgramLoop (m + 3)
          [ast.Stmt.returnS ⟨token.KeywordReturn, "return"⟩ ast.Expr.nilE]
          (parser.badState ["no prefix parse function for EOF found"]) := rfl
    show parser.ParseProgram (m + 4)
        (parser.newParserState (lexer.lexTokens "return".data)) = none
    rw [parser.ParseProgram, hstep, parser.parseProgramLoop_bad]

/-- C6: for every input, pull-style lexing terminates — finitely many
`nextToken` calls reach `EOF` (with empty literal); once an `EOF` has been
produced every later call yields `EOF` again at the same cursor; and the
token sequence delivered by `Tokens` ends with exactly one `EOF`. -/
theorem c6_lexing_terminates_and_eof_is_absorbing (input : List Char) :
    (∀ pos, ∃ k, (lexer.nextToken input (lexer.iterPos input k pos)).1.type = token.Eof) ∧
    (∀ pos k, (lexer.nextToken input pos).1.type = token.Eof →
      lexer.nextToken input (lexer.iterPos input k (lexer.nextToken input pos).2) =
        (⟨token.Eof, ""⟩, (lexer.nextToken input pos).2)) ∧
    (∃ ts, lexer.lexTokens input = ts ++ [⟨token.Eof, ""⟩] ∧
      ∀ t ∈ ts, t.type ≠ token.Eof) :=
  ⟨lexer.eventually_eof input,
    fun pos k h => (lexer.nextToken_eof_forever input pos h k).2,
    lexer.lexTokens_split input⟩

/-- C6, witness on the input `"x"`: the call at cursor 1 yields `EOF`, and
two further calls later the lexer still yields `EOF` at the same cursor. -/
theorem c6_lexing_terminates_and_eof_is_absorbing_witness :
    lexer.nextToken ['x'] (lexer.iterPos ['x'] 2 (lexer.nextToken ['x'] 1).2) =
      (⟨token.Eof, ""⟩, (lexer.nextToken ['x'] 1).2) :=
  (c6_lexing_terminates_and_eof_is_absorbing ['x']).2.1 1 2 rfl

/-- C7: the sequence of tokens delivered by the channel of `Tokens` is
exactly the pull-style `nextToken` sequence truncated right after its
first `EOF`, and nothing is delivered after that `EOF` (the delivered
sequence ends at its unique `EOF`, after which the channel is closed). -/
theorem c7_channel_equals_pull_style (input : List Char) :
    lexer.lexTokens input =
      lexer.takeThroughEof (lexer.pullStream input (input.length + 2) 0) ∧
    (∃ ts, lexer.lexTokens input = ts ++ [⟨token.Eof, ""⟩] ∧
      ∀ t ∈ ts, t.type ≠ token.Eof) :=
  ⟨lexer.tokensAux_eq_pull input (input.length + 2) 0, lexer.lexTokens_split input⟩

/-- C8 counterexample: the REPL prints `evaluated.Inspect()` plus a line
break whenever the evaluated value is non-nil; the `Null` value is a
non-nil object, so a line evaluating to `Null` prints `"null\n"` rather
than nothing. -/
theorem c8_counterexample_null_result_is_printed :
    repl.renderEvaluated (some object.Object.null) = "null\n" ∧
    ("null\n" : String) ≠ "" :=
  ⟨rfl, by decide⟩

/-- C8 amended: the REPL prints nothing only when `Eval` returns the Go
`nil` interface; any object — the `Null` value included — is printed as
its inspect form followed by a newline. -/
theorem c8_amended_print_on_non_nil (v : object.Object) :
    repl.renderEvaluated none = "" ∧
    repl.renderEvaluated (some v) = v.Inspect ++ "\n" ∧
    repl.renderEvaluated (some object.Object.null) = "null\n" :=
  ⟨rfl, rfl, rfl⟩

/-- C9: an input that is empty or all ASCII whitespace lexes to the single
`EOF` token, so `ParseProgram` ends its loop immediately: it returns a nil
error and a program with no statements. -/
theorem c9_whitespace_only_input_parses_to_empty_program (s : String) (fuel : Nat)
    (hws : ∀ c ∈ s.data, lexer.isWhitespace c = true) (hfuel : 1 ≤ fuel) :
    parser.parseInput fuel s = some ⟨[], [], none⟩ := by
  obtain ⟨f, rfl⟩ : ∃ f, fuel = f + 1 := ⟨fuel - 1, by omega⟩
  rw [parser.parseInput, lexer.lexTokens_ws s.data hws]
  rfl

/-- C9, witness on the input `" \t"` with fuel 1. -/
theorem c9_whitespace_only_input_parses_to_empty_program_witness :
    parser.parseInput 1 " \t" = some ⟨[], [], none⟩ :=
  c9_whitespace_only_input_parses_to_empty_program " \t" 1 (by decide) (by decide)

/-- C10 counterexample: the claim fails when the duplicated key text does
not parse.  In `"\x7b09: 1, 09: 2\x7d"` the source holds two `key : value`
occurrences with identical text, but both key parses fail (base-0 rejects
`"09"`), both occurrences share the nil interface key in `hash.Pairs`, and
the second assignment overwrites the first: the parsed hash literal stores
exactly one pair, not two. -/
theorem c10_counterexample_nil_keys_merge :
    parser.parseInput 30 "\x7b09: 1, 09: 2\x7d" =
      some ⟨[ast.Stmt.exprS ⟨token.DelimiterLeftBrace, "\x7b"⟩
        (ast.Expr.hashLit ⟨token.DelimiterLeftBrace, "\x7b"⟩
          [(ast.Expr.nilE, ast.Expr.intLit ⟨token.TypeInteger, "2"⟩ 2)])],
        ["could not parse \"09\" as integer", "could not parse \"09\" as integer"],
        some ("error while parsing input: could not parse \"09\" as integer, " ++
          "could not parse \"09\" as integer")⟩ ∧
    ([(ast.Expr.nilE, ast.Expr.intLit ⟨token.TypeInteger, "2"⟩ 2)].length : Nat) ≠ 2 :=
  ⟨rfl, by decide⟩

/-- C10 amended: `hash.Pairs[key] = value` inserts under a freshly
allocated node pointer, so an occurrence whose key expression parses is
always stored as its own pair, never merged or dropped even when two
occurrences have identical source text — shown generally for `mapAssign`
and on `"\x7b1: 2, 1: 3\x7d"`; occurrences whose key expression fails to
parse all share the nil interface key, and a later one overwrites the
earlier, as on `"\x7b09: 1, 09: 2\x7d"`. -/
theorem c10_amended_hash_pairs_merge_only_on_nil_keys :
    (∀ (pairs : List (ast.Expr × ast.Expr)) (k v : ast.Expr),
      k ≠ ast.Expr.nilE → parser.mapAssign pairs k v = pairs ++ [(k, v)]) ∧
    parser.parseInput 30 "\x7b1: 2, 1: 3\x7d" =
      some ⟨[ast.Stmt.exprS ⟨token.DelimiterLeftBrace, "\x7b"⟩
        (ast.Expr.hashLit ⟨token.DelimiterLeftBrace, "\x7b"⟩
          [(ast.Expr.intLit ⟨token.TypeInteger, "1"⟩ 1,
             ast.Expr.intLit ⟨token.TypeInteger, "2"⟩ 2),
           (ast.Expr.intLit ⟨token.TypeInteger, "1"⟩ 1,
             ast.Expr.intLit ⟨token.TypeInteger, "3"⟩ 3)])], [], none⟩ ∧
    (∀ (v w : ast.Expr),
      parser.mapAssign (parser.mapAssign [] ast.Expr.nilE v) ast.Expr.nilE w =
        [(ast.Expr.nilE, w)]) ∧
    parser.parseInput 30 "\x7b09: 1, 09: 2\x7d" =
      some ⟨[ast.Stmt.exprS ⟨token.DelimiterLeftBrace, "\x7b"⟩
        (ast.Expr.hashLit ⟨token.DelimiterLeftBrace, "\x7b"⟩
          [(ast.Expr.nilE, ast.Expr.intLit ⟨token.TypeInteger, "2"⟩ 2)])],
        ["could not parse \"09\" as integer", "could not parse \"09\" as integer"],
        some ("error while parsing input: could not parse \"09\" as integer, " ++
          "could not parse \"09\" as integer")⟩ := by
  refine ⟨?_, rfl, ?_, rfl⟩
  · intro pairs k v hk
    cases k with
    | nilE => exact absurd rfl hk
    | identE id => rfl
    | intLit tok value => rfl
    | strLit tok value => rfl
    | boolLit tok value => rfl
    | prefixE tok op right => rfl
    | infixE tok left op right => rfl
    | ifE tok cond cons alt => rfl
    | funcLit tok params body => rfl
    | arrayLit tok elems => rfl
    | indexE tok left idx => rfl
    | callE tok fn args => rfl
    | hashLit tok ps => rfl
  · intro v w
    rfl

/-- C10 amended, witness: a non-nil key is appended, never merged. -/
theorem c10_amended_hash_pairs_merge_only_on_nil_keys_witness :
    parser.mapAssign [] (ast.Expr.boolLit token.zeroToken true) ast.Expr.nilE =
      [(ast.Expr.boolLit token.zeroToken true, ast.Expr.nilE)] :=
  c10_amended_hash_pairs_merge_only_on_nil_keys.1 []
    (ast.Expr.boolLit token.zeroToken true) ast.Expr.nilE
    (fun h => ast.Expr.noConfusion h)

/-- C7, witness on the input `"x"`. -/
theorem c7_channel_equals_pull_style_witness :
    lexer.lexTokens "x".data =
      lexer.takeThroughEof (lexer.pullStream "x".data ("x".data.length + 2) 0) ∧
    (∃ ts, lexer.lexTokens "x".data = ts ++ [⟨token.Eof, ""⟩] ∧
      ∀ t ∈ ts, t.type ≠ token.Eof) :=
  c7_channel_equals_pull_style "x".data
